import Mathlib

/-!
Verification of the autodoc documentation pipeline against its design
specification.  The repository sources under verification are the CLI entry
point (`cli.ts`), the version-control collaborator (`GitManager.ts`), and the
configuration provider (`Configuration.ts` together with the GitHub workflow
file `jsdoc-automation.yml`).  The core patching/analysis pipeline
(Patch Writer, Coverage Analyzer, Pipeline Orchestrator) is referenced by the
CLI but its implementation files are not part of the source set; those
components are modelled from the specification text, as marked on each
definition.
-/

namespace Autodoc

/-! ### Patch Writer (spec section 4.5) -/

/-- Modelled from the spec: a `Patch` is one "(range, replacement-text)" edit
against one source file's original text (spec section 3, "Patch").  `start` is
the first byte index of the range, `stop` the end-exclusive byte index, `repl`
the replacement bytes.  The Patch Writer implementation is not among the
repository sources (only its caller `cli.ts` is). -/
structure Patch (α : Type) where
  start : Nat
  stop : Nat
  repl : List α
deriving Repr, DecidableEq

variable {α : Type}

/-- Modelled from the spec: applying one edit keeps every byte before `start`
and from `stop` on, and replaces the slice `[start, stop)` with `repl`. -/
def applyOne (t : List α) (p : Patch α) : List α :=
  t.take p.start ++ p.repl ++ t.drop p.stop

/-- Modelled from the spec: the Patch Writer processes "ranges from the end of
the file backward to the start" (spec section 4.5).  The patch list is kept in
ascending range order, and the right fold applies the rightmost patch first,
so earlier insertions never shift the offsets of not-yet-applied ranges. -/
def applyPatches (t : List α) (ps : List (Patch α)) : List α :=
  ps.foldr (fun p acc => applyOne acc p) t

/-- Modelled from the spec: a patch set is "an ordered, non-overlapping set of
(range, replacement-text) edits" whose ranges lie within the original text
(spec section 3).  `wfPatches k n ps` says the ranges of `ps` are ascending,
pairwise disjoint, start at or after `k`, and end at or before `n`. -/
def wfPatches (k n : Nat) : List (Patch α) → Bool
  | [] => true
  | p :: ps =>
      decide (k ≤ p.start) && decide (p.start ≤ p.stop) && decide (p.stop ≤ n)
        && wfPatches p.stop n ps

/-- The canonical single left-to-right splice: the output is assembled from
verbatim slices of the original text lying outside the patched ranges,
interleaved with the replacement texts, with every range interpreted against
the original text.  Equality with `applyPatches` is the byte-preservation
property: all bytes outside the patched ranges reappear unchanged. -/
def splice (t : List α) (k : Nat) : List (Patch α) → List α
  | [] => t.drop k
  | p :: ps => (t.drop k).take (p.start - k) ++ p.repl ++ splice t p.stop ps

/-- Index of the first patched byte: the start of the first patch, or the text
length when there are no patches. -/
def firstStart (n : Nat) : List (Patch α) → Nat
  | [] => n
  | p :: _ => p.start

lemma take_append_of_le (A S : List α) (n : Nat) (h : n ≤ A.length) :
    (A ++ S).take n = A.take n := by
  rw [List.take_append_eq_append_take, Nat.sub_eq_zero_of_le h]
  simp

lemma applyPatches_eq_take_append_splice (t : List α) :
    ∀ (ps : List (Patch α)) (k : Nat), wfPatches k t.length ps = true →
      applyPatches t ps = t.take k ++ splice t k ps := by
  intro ps
  induction ps with
  | nil =>
      intro k _
      simp [applyPatches, splice]
  | cons p ps ih =>
      intro k h
      simp only [wfPatches, Bool.and_eq_true, decide_eq_true_eq] at h
      obtain ⟨⟨⟨hk, hss⟩, hn⟩, hrest⟩ := h
      have IH := ih p.stop hrest
      have hstep : applyPatches t (p :: ps) = applyOne (applyPatches t ps) p := rfl
      rw [hstep, IH, applyOne]
      have hlen : (t.take p.stop).length = p.stop := by
        simp [List.length_take]
        omega
      have h1 : (t.take p.stop ++ splice t p.stop ps).take p.start
          = t.take p.start := by
        rw [take_append_of_le _ _ _ (by omega), List.take_take,
          Nat.min_eq_left hss]
      have h2 : (t.take p.stop ++ splice t p.stop ps).drop p.stop
          = splice t p.stop ps := by
        rw [List.drop_append_eq_append_drop, hlen,
          List.drop_eq_nil_of_le (le_of_eq hlen), Nat.sub_self]
        simp
      rw [h1, h2]
      have h3 : t.take p.start = t.take k ++ (t.drop k).take (p.start - k) := by
        rw [← List.take_add]
        congr 1
        omega
      rw [splice, h3]
      simp [List.append_assoc]

/-! ### Coverage Analyzer, incremental mode (spec sections 3 and 4.3) -/

/-- Modelled from the spec: an inclusive range of source lines, as carried by a
ChangeSet entry and by a declaration's header and body (spec section 3). -/
structure LineRange where
  lo : Nat
  hi : Nat
deriving Repr, DecidableEq

/-- Two inclusive line ranges intersect. -/
def rangesIntersect (a b : LineRange) : Bool :=
  decide (a.lo ≤ b.hi) && decide (b.lo ≤ a.hi)

/-- Modelled from the spec: the part of a Declaration the incremental Coverage
Analyzer consumes — header line range, body line range, and whether an existing
documentation comment is attached (spec section 3, "Declaration"). -/
structure DeclInfo where
  headerRange : LineRange
  bodyRange : LineRange
  hasDoc : Bool
deriving Repr, DecidableEq

/-- Modelled from the spec: the per-declaration coverage verdict, one of
`Skip`, `Generate`, `Regenerate` (spec section 3, "CoverageVerdict"). -/
inductive Verdict where
  | skip
  | generate
  | regenerate
deriving Repr, DecidableEq

/-- Modelled from the spec: a declaration is "touched" when its header range
intersects a changed range, or its body range does ("declarations whose bodies
(not headers) intersect are also touched", spec section 4.3). -/
def touched (d : DeclInfo) (changes : List LineRange) : Bool :=
  changes.any fun r =>
    rangesIntersect d.headerRange r || rangesIntersect d.bodyRange r

/-- Modelled from the spec: the incremental (pull-request) mode verdict.  An
untouched declaration is always `Skip` regardless of documentation state; a
touched declaration with an existing doc is `Regenerate`, without one it is
`Generate` (spec section 4.3).  The Coverage Analyzer implementation is not
among the repository sources. -/
def incrementalVerdict (d : DeclInfo) (changes : List LineRange) : Verdict :=
  if touched d changes then
    if d.hasDoc then Verdict.regenerate else Verdict.generate
  else Verdict.skip

/-! ### Pipeline Orchestrator failure isolation (spec sections 4.6 and 7) -/

/-- Modelled from the spec: a source file handed to the pipeline — path and raw
text (spec section 3, "SourceFile"). -/
structure SrcFile where
  path : String
  text : String
deriving Repr, DecidableEq

/-- Modelled from the spec: the per-file outcome recorded in a PipelineRun —
"unchanged / patched / failed", a failure carrying a reason (spec section 3,
"PipelineRun", and section 7). -/
inductive FileOutcome where
  | patched (newText : String)
  | unchanged
  | failed (reason : String)
deriving Repr, DecidableEq

/-- Modelled from the spec: processing of one file through parsing, generation
and patching, each stage fallible.  `parse` stands for the Declaration
Extractor on the file text, `rewrite` for generation plus patch application on
the parse product.  A stage failure yields a `failed` outcome carrying the
stage's reason; a successful rewrite equal to the original text is reported
`unchanged` (spec sections 4.2, 4.6, 7).  The Orchestrator implementation is
not among the repository sources. -/
def processFile (parse : String → Except String Nat)
    (rewrite : Nat → Except String String) (f : SrcFile) : FileOutcome :=
  match parse f.text with
  | Except.error e => FileOutcome.failed ("parse failure: " ++ e)
  | Except.ok decls =>
      match rewrite decls with
      | Except.error e => FileOutcome.failed ("generation or patching failure: " ++ e)
      | Except.ok newText =>
          if newText = f.text then FileOutcome.unchanged
          else FileOutcome.patched newText

/-- Modelled from the spec: the Pipeline Orchestrator sequences the stages per
file and aggregates every file's outcome, with its path, into the run report;
sub-fatal failures are recorded there and never propagate (the function is
total and per-file) (spec sections 4.6 and 7). -/
def runPipeline (parse : String → Except String Nat)
    (rewrite : Nat → Except String String) (files : List SrcFile) :
    List (String × FileOutcome) :=
  files.map fun f => (f.path, processFile parse rewrite f)

/-! ### GitManager (GitManager.ts) -/

/-- JavaScript truthiness of an optional environment-variable string:
`undefined` and the empty string are falsy, every other string is truthy. -/
def jsTruthy (v : Option String) : Bool :=
  match v with
  | none => false
  | some s => s != ""

/-- Embedding of JavaScript `String.prototype.toUpperCase`, character by
character. -/
def jsToUpperCase (s : String) : String :=
  String.mk (s.data.map Char.toUpper)

/-- Embedding of JavaScript `String.prototype.trim`: leading and trailing
whitespace removed. -/
def jsTrim (s : String) : String :=
  String.mk
    (((s.data.dropWhile Char.isWhitespace).reverse.dropWhile
      Char.isWhitespace).reverse)

/-- Splitting a character list on a separator, with JavaScript `split`
semantics: the empty string yields one empty item, and a separator at either
end yields an empty item there. -/
def splitCharList (sep : Char) : List Char → List (List Char)
  | [] => [[]]
  | c :: cs =>
      let rest := splitCharList sep cs
      if c = sep then [] :: rest
      else
        match rest with
        | [] => [[c]]
        | h :: t => (c :: h) :: t

/-- Embedding of JavaScript `String.prototype.split` with a one-character
separator. -/
def jsSplit (sep : Char) (s : String) : List String :=
  (splitCharList sep s.data).map String.mk

/-- The Octokit client as initialized by the `GitManager` constructor: it
carries the authentication token passed as `auth`. -/
structure Octokit where
  auth : String
deriving Repr, DecidableEq

/-- `GitManager`'s constructor: it throws `GITHUB_ACCESS_TOKEN is not set`
when `process.env.GITHUB_ACCESS_TOKEN` is falsy (unset or empty), and
otherwise constructs the Octokit client with that token
(GitManager.ts, constructor). -/
def mkGitManager (githubAccessToken : Option String) : Except String Octokit :=
  if jsTruthy githubAccessToken then
    Except.ok { auth := githubAccessToken.getD "" }
  else Except.error "GITHUB_ACCESS_TOKEN is not set"

/-- An error object thrown by a GitHub API call, with its HTTP `status`. -/
structure GhError where
  status : Nat
  msg : String
deriving Repr, DecidableEq

/-- One GitHub API call issued by `GitManager.commitFile`:  reading a file's
current content on a branch, or `createOrUpdateFileContents` with an optional
blob sha. -/
inductive GhCall where
  | getContent (path branch : String)
  | createOrUpdate (path branch content message : String) (sha : Option String)
deriving Repr, DecidableEq

/-- The path normalisation in `commitFile`: every backslash replaced by a
forward slash (`filePath.replace(/\\/g, '/')`). -/
def posixPath (filePath : String) : String :=
  String.mk (filePath.data.map fun c => if c = '\\' then '/' else c)

/-- `GitManager.commitFile` (GitManager.ts).  The GitHub API is abstracted by
two oracles: `readResult` is the outcome of `repos.getContent` (the blob sha on
success), and `update` maps the optional sha passed to
`repos.createOrUpdateFileContents` to that call's outcome.  The function
returns the list of API calls issued and the overall outcome.  The `try` block
reads the content and updates with the retrieved sha; the `catch` block
inspects the error status: 404 leads to a fresh create without sha, any other
error is rethrown unchanged. -/
def commitFile (readResult : Except GhError String)
    (update : Option String → Except GhError Unit)
    (branchName filePath content message : String) :
    List GhCall × Except GhError Unit :=
  let p := posixPath filePath
  match readResult with
  | Except.ok sha =>
      let calls := [GhCall.getContent p branchName,
        GhCall.createOrUpdate p branchName content message (some sha)]
      match update (some sha) with
      | Except.ok _ => (calls, Except.ok ())
      | Except.error e =>
          if e.status = 404 then
            (calls ++ [GhCall.createOrUpdate p branchName content message none],
              update none)
          else (calls, Except.error e)
  | Except.error e =>
      if e.status = 404 then
        ([GhCall.getContent p branchName,
          GhCall.createOrUpdate p branchName content message none],
          update none)
      else ([GhCall.getContent p branchName], Except.error e)

/-- The options record taken by `GitManager.createPullRequest`
(`CreatePullRequestOptions` in GitManager.ts). -/
structure CreatePullRequestOptions where
  title : String
  body : String
  head : String
  base : String
  labels : Option (List String)
  reviewers : Option (List String)
deriving Repr, DecidableEq

/-- One GitHub API call issued by `GitManager.createPullRequest`. -/
inductive PrCall where
  | listPulls (head : String)
  | createPull (title body head base : String)
  | getAuthenticated
  | requestReviewers (reviewers : List String)
deriving Repr, DecidableEq

/-- `GitManager.createPullRequest` (GitManager.ts), as the sequence of GitHub
API calls it issues on the non-throwing path.  `existingPrs` is the list of
pull-request numbers returned by `pulls.list` for the head branch, and `login`
is the authenticated user's login.  When `existingPrs` is non-empty the method
logs and returns after the list call; otherwise it creates the pull request,
and, when the options carry a non-empty reviewer list, fetches the
authenticated user and requests a review from every reviewer whose trimmed
name differs from that login — issuing the request call only when at least one
reviewer survives the filter. -/
def createPullRequest (existingPrs : List Nat) (login : String)
    (options : CreatePullRequestOptions) : List PrCall :=
  let listed := [PrCall.listPulls options.head]
  if existingPrs.length > 0 then listed
  else
    let created := listed
      ++ [PrCall.createPull options.title options.body options.head options.base]
    match options.reviewers with
    | none => created
    | some reviewers =>
        if reviewers.length > 0 then
          let reviewersToRequest := reviewers.filter fun r => jsTrim r != login
          if reviewersToRequest.length > 0 then
            created ++ [PrCall.getAuthenticated,
              PrCall.requestReviewers reviewersToRequest]
          else created ++ [PrCall.getAuthenticated]
        else created

/-! ### Configuration (Configuration.ts and jsdoc-automation.yml) -/

/-- `Configuration.loadConfiguration`, the `generateJsDoc` flag:
`process.env.INPUT_JSDOC ? process.env.INPUT_JSDOC.toUpperCase() === 'T' :
true` (Configuration.ts). -/
def generateJsDoc (inputJsDoc : Option String) : Bool :=
  if jsTruthy inputJsDoc then jsToUpperCase (inputJsDoc.getD "") == "T"
  else true

/-- `Configuration.loadConfiguration`, the `generateReadme` flag:
`process.env.INPUT_README ? process.env.INPUT_README.toUpperCase() === 'T' :
true` (Configuration.ts). -/
def generateReadme (inputReadme : Option String) : Bool :=
  if jsTruthy inputReadme then jsToUpperCase (inputReadme.getD "") == "T"
  else true

/-- The claim's reading of a mode flag, written from the spec sentence for
comparison with the code: true exactly when the variable is unset or its
uppercase form equals the single letter `T`. -/
def claimedFlag (v : Option String) : Bool :=
  match v with
  | none => true
  | some s => jsToUpperCase s == "T"

/-- `Configuration.parseCommaSeparatedInput` (Configuration.ts): a falsy input
yields the default; otherwise the input is split on commas, each item trimmed,
and empty items removed (`filter(Boolean)`). -/
def parseCommaSeparatedInput (input : Option String)
    (defaultValue : List String) : List String :=
  if jsTruthy input then
    ((jsSplit ',' (input.getD "")).map jsTrim).filter fun s => s != ""
  else defaultValue

/-- The excluded directory names computed by `Configuration.loadConfiguration`
from `INPUT_EXCLUDED_DIRECTORIES`, with default
`['node_modules', 'dist', 'test']` (Configuration.ts). -/
def excludedDirectories (inputExcludedDirectories : Option String) :
    List String :=
  parseCommaSeparatedInput inputExcludedDirectories
    ["node_modules", "dist", "test"]

/-- The `excludedFiles` field of `Configuration`: initialised to
`['index.d.ts']` and never reassigned by `loadConfiguration`
(Configuration.ts). -/
def excludedFiles : List String :=
  ["index.d.ts"]

/-- The relative-path normalisation in `loadConfiguration`:
`value.replace(/^\/+/, '')` removes the maximal leading run of `/`. -/
def stripLeadingSlashes (s : String) : String :=
  String.mk (s.data.dropWhile fun c => c = '/')

/-- `Configuration.loadConfiguration`, root-directory resolution, projected to
the repository-relative path (Configuration.ts).  `inputRootDirectory` is
`process.env.INPUT_ROOT_DIRECTORY`; `workflow` describes the file
`.github/workflows/jsdoc-automation.yml` under the repository root: `none`
when it does not exist, `some d` when it exists and
`on.workflow_dispatch.inputs.root_directory.default` parses to `d` (`none`
inside when the default is absent).  A truthy environment value is used
directly with leading slashes stripped; otherwise the workflow file is read —
a missing file or a falsy default throws. -/
def loadRootDirectory (inputRootDirectory : Option String)
    (workflow : Option (Option String)) : Except String String :=
  if jsTruthy inputRootDirectory then
    Except.ok (stripLeadingSlashes (inputRootDirectory.getD ""))
  else
    match workflow with
    | none => Except.error "Workflow file not found"
    | some d =>
        if jsTruthy d then Except.ok (stripLeadingSlashes (d.getD ""))
        else Except.error "No root directory default found in workflow configuration"

lemma jsTruthy_some (s : String) : jsTruthy (some s) = true ↔ s ≠ "" := by
  simp [jsTruthy]

/-! ### Claim theorems -/

/-- Claim C1: for every source file and every well-formed set of N patches
(N ≥ 0) — ranges ascending, non-overlapping, within the text — applying the
patch set from the end of the file backward yields exactly the canonical
left-to-right splice of the original text: every byte outside the patched
ranges reappears verbatim (as an untouched slice of the original text, in
order), the ranges being interpreted against the original text; in particular
the whole prefix before the first patched byte is unchanged. -/
theorem patch_byte_preservation (t : List α) (ps : List (Patch α))
    (h : wfPatches 0 t.length ps = true) :
    applyPatches t ps = splice t 0 ps ∧
    (applyPatches t ps).take (firstStart t.length ps)
      = t.take (firstStart t.length ps) := by
  have main := applyPatches_eq_take_append_splice t ps 0 h
  simp only [List.take_zero, List.nil_append] at main
  refine ⟨main, ?_⟩
  cases ps with
  | nil =>
      simp [applyPatches, firstStart]
  | cons p ps' =>
      simp only [wfPatches, Bool.and_eq_true, decide_eq_true_eq] at h
      obtain ⟨⟨⟨-, hss⟩, hn⟩, -⟩ := h
      rw [main]
      show (splice t 0 (p :: ps')).take p.start = t.take p.start
      rw [splice]
      simp only [Nat.sub_zero, List.drop_zero]
      rw [take_append_of_le _ _ _ (by simp [List.length_take]; omega),
        take_append_of_le _ _ _ (by simp [List.length_take]; omega),
        List.take_take]
      simp

def wText : List Nat := [10, 20, 30, 40, 50]

def wPatches : List (Patch Nat) := [⟨1, 2, [99]⟩, ⟨3, 3, [77, 88]⟩]

theorem patch_byte_preservation_witness :
    wfPatches 0 wText.length wPatches = true ∧
    (applyPatches wText wPatches = splice wText 0 wPatches ∧
      (applyPatches wText wPatches).take (firstStart wText.length wPatches)
        = wText.take (firstStart wText.length wPatches)) :=
  ⟨by decide, patch_byte_preservation wText wPatches (by decide)⟩

/-- Claim C2: in incremental (pull-request) mode, every declaration whose
header range and body range intersect no changed line range receives the
verdict `Skip`, whatever its documentation state; and for a ChangeSet touching
only lines 10–12 of a file with declarations at lines 1–5 and 9–20, only the
second declaration receives a non-`Skip` verdict. -/
theorem incrementalVerdict_untouched_skip :
    (∀ (d : DeclInfo) (changes : List LineRange),
        touched d changes = false →
          incrementalVerdict d changes = Verdict.skip) ∧
    (∀ b₁ b₂ : Bool,
        incrementalVerdict ⟨⟨1, 5⟩, ⟨1, 5⟩, b₁⟩ [⟨10, 12⟩] = Verdict.skip ∧
        incrementalVerdict ⟨⟨9, 9⟩, ⟨9, 20⟩, b₂⟩ [⟨10, 12⟩] ≠ Verdict.skip) := by
  constructor
  · intro d changes h
    simp [incrementalVerdict, h]
  · decide

theorem incrementalVerdict_untouched_skip_witness :
    touched ⟨⟨1, 5⟩, ⟨1, 5⟩, true⟩ [⟨10, 12⟩] = false ∧
    incrementalVerdict ⟨⟨1, 5⟩, ⟨1, 5⟩, true⟩ [⟨10, 12⟩] = Verdict.skip :=
  ⟨by decide, incrementalVerdict_untouched_skip.1 _ _ (by decide)⟩

/-- Claim C3: for every run and every file in it, the file's outcome in the
run report is a function of that file alone — a parse, generation, or patching
failure scoped to one file cannot prevent any other file from being fully
processed; the report is total (one outcome per file, so no sub-fatal failure
propagates past the orchestrator) and records every failure with a reason. -/
theorem runPipeline_failure_isolation :
    ∀ (parse : String → Except String Nat)
      (rewrite : Nat → Except String String)
      (files : List SrcFile) (i : Nat) (f : SrcFile),
      files[i]? = some f →
      (runPipeline parse rewrite files).length = files.length ∧
      (runPipeline parse rewrite files)[i]?
        = some (f.path, processFile parse rewrite f) ∧
      (∀ e, parse f.text = Except.error e →
        processFile parse rewrite f
          = FileOutcome.failed ("parse failure: " ++ e)) ∧
      (∀ n e, parse f.text = Except.ok n → rewrite n = Except.error e →
        processFile parse rewrite f
          = FileOutcome.failed ("generation or patching failure: " ++ e)) := by
  intro parse rewrite files i f hf
  refine ⟨by simp [runPipeline], ?_, ?_, ?_⟩
  · simp [runPipeline, List.getElem?_map, hf]
  · intro e he
    simp [processFile, he]
  · intro n e hn he
    simp [processFile, hn, he]

def wFiles : List SrcFile :=
  [⟨"a.ts", "ok1"⟩, ⟨"bad.ts", "BAD"⟩, ⟨"c.ts", "ok2"⟩]

def wParse : String → Except String Nat := fun s =>
  if s = "BAD" then Except.error "invalid syntax" else Except.ok s.length

def wRewrite : Nat → Except String String := fun n =>
  Except.ok (String.mk (List.replicate n 'x'))

theorem runPipeline_failure_isolation_witness :
    wFiles[1]? = some ⟨"bad.ts", "BAD"⟩ ∧
    ((runPipeline wParse wRewrite wFiles).length = wFiles.length ∧
      (runPipeline wParse wRewrite wFiles)[1]?
        = some ("bad.ts",
            processFile wParse wRewrite ⟨"bad.ts", "BAD"⟩) ∧
      (∀ e, wParse "BAD" = Except.error e →
        processFile wParse wRewrite ⟨"bad.ts", "BAD"⟩
          = FileOutcome.failed ("parse failure: " ++ e)) ∧
      (∀ n e, wParse "BAD" = Except.ok n → wRewrite n = Except.error e →
        processFile wParse wRewrite ⟨"bad.ts", "BAD"⟩
          = FileOutcome.failed ("generation or patching failure: " ++ e))) :=
  ⟨by decide,
    runPipeline_failure_isolation wParse wRewrite wFiles 1 ⟨"bad.ts", "BAD"⟩
      (by decide)⟩

/-- Claim C4: for every `CreatePullRequestOptions` value, when listing pull
requests for the head branch returns at least one existing pull request,
`GitManager.createPullRequest` returns after the list call — it creates no new
pull request and requests no reviewers; a pull request is created exactly when
the existing-PR list is empty. -/
theorem createPullRequest_duplicate_avoidance :
    ∀ (existingPrs : List Nat) (login : String)
      (options : CreatePullRequestOptions),
      (existingPrs ≠ [] →
        createPullRequest existingPrs login options
          = [PrCall.listPulls options.head]) ∧
      (existingPrs = [] →
        PrCall.createPull options.title options.body options.head options.base
          ∈ createPullRequest existingPrs login options) := by
  intro existingPrs login options
  constructor
  · intro h
    have hlen : existingPrs.length > 0 := List.length_pos.mpr h
    simp [createPullRequest, hlen]
  · intro h
    subst h
    cases hr : options.reviewers with
    | none => simp [createPullRequest, hr]
    | some reviewers =>
        by_cases h1 : reviewers.length > 0
        · simp only [createPullRequest, hr, List.length_nil, gt_iff_lt,
            Nat.lt_irrefl, if_false, if_pos h1]
          split <;> simp
        · simp [createPullRequest, hr, h1]

def wOptions : CreatePullRequestOptions :=
  { title := "JSDoc Generation"
    body := "Automated JSDoc generation for the codebase"
    head := "feature"
    base := "main"
    labels := some ["documentation"]
    reviewers := some ["alice", "bob"] }

theorem createPullRequest_duplicate_avoidance_witness :
    ([7] : List Nat) ≠ [] ∧
    createPullRequest [7] "bob" wOptions = [PrCall.listPulls wOptions.head] ∧
    PrCall.createPull wOptions.title wOptions.body wOptions.head wOptions.base
      ∈ createPullRequest [] "bob" wOptions :=
  ⟨by decide,
    (createPullRequest_duplicate_avoidance [7] "bob" wOptions).1 (by decide),
    (createPullRequest_duplicate_avoidance [] "bob" wOptions).2 rfl⟩

/-- Claim C5: constructing the `GitManager` collaborator throws exactly when
the `GITHUB_ACCESS_TOKEN` environment variable is unset or empty; when the
variable carries a non-empty token, construction succeeds and initialises the
API client with that token. -/
theorem mkGitManager_token_check :
    ∀ (token : Option String),
      ((∃ e, mkGitManager token = Except.error e) ↔
        token = none ∨ token = some "") ∧
      (∀ t, t ≠ "" → mkGitManager (some t) = Except.ok { auth := t }) := by
  intro token
  refine ⟨⟨?_, ?_⟩, ?_⟩
  · rintro ⟨e, he⟩
    cases token with
    | none => exact Or.inl rfl
    | some s =>
        refine Or.inr ?_
        by_cases hs : s = ""
        · rw [hs]
        · exfalso
          rw [mkGitManager, if_pos ((jsTruthy_some s).mpr hs)] at he
          exact Except.noConfusion he
  · rintro (rfl | rfl)
    · exact ⟨"GITHUB_ACCESS_TOKEN is not set", rfl⟩
    · exact ⟨"GITHUB_ACCESS_TOKEN is not set", rfl⟩
  · intro t ht
    rw [mkGitManager, if_pos ((jsTruthy_some t).mpr ht)]
    rfl

theorem mkGitManager_token_check_witness :
    (("ghp-token" : String) ≠ "") ∧
    mkGitManager (some "ghp-token") = Except.ok { auth := "ghp-token" } :=
  ⟨by decide, (mkGitManager_token_check (some "ghp-token")).2 "ghp-token"
    (by decide)⟩

lemma flag_characterisation (v : Option String) :
    (if jsTruthy v then jsToUpperCase (v.getD "") == "T" else true) = true ↔
      v = none ∨ v = some "" ∨ ∃ s, v = some s ∧ jsToUpperCase s = "T" := by
  cases v with
  | none => simp [jsTruthy]
  | some s =>
      by_cases hs : s = ""
      · subst hs
        simp [jsTruthy]
      · rw [if_pos ((jsTruthy_some s).mpr hs)]
        simp [hs]

/-- Claim C6 counterexample: with `INPUT_JSDOC` set to the empty string the
code yields `generateJsDoc = true` (the empty string is falsy, so the default
branch fires), while the claimed reading — true exactly when the variable is
unset or uppercases to `T` — yields `false`, since the empty string is set and
its uppercase form is not `T`. -/
theorem generateJsDoc_empty_string_counterexample :
    generateJsDoc (some "") = true ∧ claimedFlag (some "") = false ∧
    (some "" : Option String) ≠ none ∧
    (jsToUpperCase "" == "T") = false := by
  refine ⟨rfl, by decide, by simp, by decide⟩

/-- Claim C6 (amended): `generateJsDoc` is true exactly when `INPUT_JSDOC` is
unset, or empty, or its uppercase form equals the single letter `T`; likewise
`generateReadme` with `INPUT_README`; every other value (for example `true`,
`F`, `yes`) yields false. -/
theorem generate_flags_characterisation :
    ∀ (v : Option String),
      (generateJsDoc v = true ↔
        v = none ∨ v = some "" ∨ ∃ s, v = some s ∧ jsToUpperCase s = "T") ∧
      (generateReadme v = true ↔
        v = none ∨ v = some "" ∨ ∃ s, v = some s ∧ jsToUpperCase s = "T") := by
  intro v
  exact ⟨flag_characterisation v, flag_characterisation v⟩

/-- Claim C7: the excluded directory names equal the comma-split of
`INPUT_EXCLUDED_DIRECTORIES` with every item whitespace-trimmed and empty
items removed; when the variable is unset or empty the list is exactly
`['node_modules', 'dist', 'test']`; and the excluded file names default to
`['index.d.ts']`. -/
theorem excludedDirectories_parsing :
    (∀ s : String, s ≠ "" →
      excludedDirectories (some s)
        = ((jsSplit ',' s).map jsTrim).filter fun t => t != "") ∧
    excludedDirectories none = ["node_modules", "dist", "test"] ∧
    excludedDirectories (some "") = ["node_modules", "dist", "test"] ∧
    excludedFiles = ["index.d.ts"] := by
  refine ⟨?_, rfl, rfl, rfl⟩
  intro s hs
  rw [excludedDirectories, parseCommaSeparatedInput,
    if_pos ((jsTruthy_some s).mpr hs)]
  rfl

theorem excludedDirectories_parsing_witness :
    (" packages , , dist " : String) ≠ "" ∧
    excludedDirectories (some " packages , , dist ")
      = (((jsSplit ',' " packages , , dist ").map jsTrim).filter
          fun t => t != "") ∧
    excludedDirectories (some " packages , , dist ")
      = ["packages", "dist"] :=
  ⟨by decide,
    excludedDirectories_parsing.1 " packages , , dist " (by decide),
    by decide⟩

/-- Claim C8: `GitManager.commitFile` commits the full new file text to the
given branch such that a read failing with HTTP status 404 leads to a fresh
create with no sha (and, the create succeeding, the call succeeds); a
successful read leads to an update call carrying the retrieved sha; and a read
error with any other status propagates to the caller unchanged. -/
theorem commitFile_read_fallback :
    ∀ (readResult : Except GhError String)
      (update : Option String → Except GhError Unit)
      (branchName filePath content message : String),
      (∀ e, readResult = Except.error e → e.status = 404 →
        update none = Except.ok () →
        commitFile readResult update branchName filePath content message
          = ([GhCall.getContent (posixPath filePath) branchName,
              GhCall.createOrUpdate (posixPath filePath) branchName content
                message none],
             Except.ok ())) ∧
      (∀ sha, readResult = Except.ok sha →
        GhCall.createOrUpdate (posixPath filePath) branchName content message
            (some sha)
          ∈ (commitFile readResult update branchName filePath content
              message).1) ∧
      (∀ e, readResult = Except.error e → e.status ≠ 404 →
        commitFile readResult update branchName filePath content message
          = ([GhCall.getContent (posixPath filePath) branchName],
             Except.error e)) := by
  intro readResult update branchName filePath content message
  refine ⟨?_, ?_, ?_⟩
  · intro e he h404 hupd
    subst he
    simp [commitFile, h404, hupd]
  · intro sha hs
    subst hs
    cases hu : update (some sha) with
    | ok u => simp [commitFile, hu]
    | error e =>
        by_cases h4 : e.status = 404
        · simp [commitFile, hu, h4]
        · simp [commitFile, hu, h4]
  · intro e he h404
    subst he
    simp [commitFile, h404]

def wUpdate : Option String → Except GhError Unit := fun _ => Except.ok ()

theorem commitFile_read_fallback_witness :
    ((Except.error ⟨404, "Not Found"⟩ : Except GhError String)
        = Except.error ⟨404, "Not Found"⟩) ∧
    ((404 : Nat) = 404) ∧ (wUpdate none = Except.ok ()) ∧
    commitFile (Except.error ⟨404, "Not Found"⟩) wUpdate "develop"
        "pkg\\core.ts" "new text" "Generated JSDoc comments"
      = ([GhCall.getContent (posixPath "pkg\\core.ts") "develop",
          GhCall.createOrUpdate (posixPath "pkg\\core.ts") "develop"
            "new text" "Generated JSDoc comments" none],
         Except.ok ()) :=
  ⟨rfl, rfl, rfl,
    (commitFile_read_fallback (Except.error ⟨404, "Not Found"⟩) wUpdate
        "develop" "pkg\\core.ts" "new text" "Generated JSDoc comments").1
      ⟨404, "Not Found"⟩ rfl rfl rfl⟩

/-- Claim C9: on the pull-request-creation path (no pre-existing pull request
for the head branch), a reviewer-request call is issued exactly when the
configured reviewer list, with every reviewer whose trimmed username equals
the authenticated user's login removed, is non-empty — and then it carries
exactly that filtered list; with an absent or empty reviewer list, or every
reviewer being the author, no reviewer-request call is made. -/
theorem createPullRequest_reviewer_filter :
    ∀ (login : String) (options : CreatePullRequestOptions)
      (rs : List String),
      PrCall.requestReviewers rs ∈ createPullRequest [] login options ↔
        rs = (options.reviewers.getD []).filter (fun r => jsTrim r != login)
          ∧ rs ≠ [] := by
  intro login options rs
  cases hr : options.reviewers with
  | none =>
      constructor
      · intro h
        exfalso
        simp [createPullRequest, hr] at h
      · rintro ⟨h1, h2⟩
        exact absurd (by simpa using h1) h2
  | some reviewers =>
      by_cases h1 : reviewers.length > 0
      · by_cases h2 :
          (reviewers.filter fun r => jsTrim r != login).length > 0
        · constructor
          · intro h
            simp [createPullRequest, hr, h1, h2] at h
            have hne : reviewers.filter (fun r => jsTrim r != login) ≠ [] := by
              intro hnil
              rw [hnil] at h2
              simp at h2
            subst h
            exact ⟨by simp [hr], hne⟩
          · rintro ⟨hrs, -⟩
            simp only [hr, Option.getD_some] at hrs
            subst hrs
            simp [createPullRequest, hr, h1, h2]
        · constructor
          · intro h
            exfalso
            simp [createPullRequest, hr, h1, h2] at h
          · rintro ⟨hrs, hne⟩
            exfalso
            apply hne
            rw [hrs]
            simp only [hr, Option.getD_some]
            exact List.length_eq_zero.mp (Nat.eq_zero_of_not_pos h2)
      · have hrev : reviewers = [] :=
          List.length_eq_zero.mp (Nat.eq_zero_of_not_pos h1)
        subst hrev
        constructor
        · intro h
          exfalso
          simp [createPullRequest, hr] at h
        · rintro ⟨hrs, hne⟩
          exact absurd (by simpa [hr] using hrs) hne

/-- Claim C10 counterexample: with `INPUT_ROOT_DIRECTORY` set to the empty
string and no workflow file present, the code does not use the stripped
environment value — the empty string is falsy, so it takes the fallback branch
and throws because the workflow file is missing — whereas the claim, reading
"set" as covering every set value, predicts the stripped value. -/
theorem loadRootDirectory_empty_string_counterexample :
    loadRootDirectory (some "") none
        = Except.error "Workflow file not found" ∧
    loadRootDirectory (some "") none
        ≠ Except.ok (stripLeadingSlashes "") :=
  ⟨rfl, fun h => Except.noConfusion h⟩

/-- Claim C10 (amended): when `INPUT_ROOT_DIRECTORY` is unset (or empty),
Configuration construction falls back to the `root_directory` default declared
in `.github/workflows/jsdoc-automation.yml` under the repository root, and
throws if that workflow file does not exist or declares no non-empty
`root_directory` default; when `INPUT_ROOT_DIRECTORY` is set to a non-empty
value, the relative root path is that value with leading `/` characters
stripped. -/
theorem loadRootDirectory_resolution :
    ∀ (workflow : Option (Option String)),
      (∀ s : String, s ≠ "" →
        loadRootDirectory (some s) workflow
          = Except.ok (stripLeadingSlashes s)) ∧
      (loadRootDirectory none none
        = Except.error "Workflow file not found") ∧
      (loadRootDirectory none (some none)
        = Except.error
            "No root directory default found in workflow configuration") ∧
      (∀ d : String,
        loadRootDirectory none (some (some d))
          = if d = "" then
              Except.error
                "No root directory default found in workflow configuration"
            else Except.ok (stripLeadingSlashes d)) := by
  intro workflow
  refine ⟨?_, rfl, rfl, ?_⟩
  · intro s hs
    rw [loadRootDirectory.eq_def, if_pos ((jsTruthy_some s).mpr hs)]
    rfl
  · intro d
    by_cases hd : d = ""
    · subst hd
      simp [loadRootDirectory, jsTruthy]
    · rw [if_neg hd]
      simp only [loadRootDirectory, jsTruthy]
      rw [if_pos (show (d != "") = true by simp [hd])]
      simp

theorem loadRootDirectory_resolution_witness :
    ("/packages/core" : String) ≠ "" ∧
    loadRootDirectory (some "/packages/core") none
      = Except.ok (stripLeadingSlashes "/packages/core") ∧
    stripLeadingSlashes "/packages/core" = "packages/core" :=
  ⟨by decide,
    (loadRootDirectory_resolution none).1 "/packages/core" (by decide),
    by decide⟩

end Autodoc
